import Mathlib

/-!
Verification of the core metric logic of the `claude-usage` terminal monitor
(`src/monitor.ts`).  The program's arithmetic is JavaScript `number`
arithmetic on millisecond timestamps; within the ranges exercised here it is
exact, so timestamps, token counts and rates are modelled as rationals (`ℚ`).
Local wall-clock instants (used only by the reset scheduler, which works on
calendar fields) are modelled by a `LocalDate` record of the fields the code
reads and writes via `getHours`/`getMinutes`/`setHours`/`setDate`.
-/

/-- One usage block from the `ccusage blocks --json` snapshot
(interface `Block`, monitor.ts lines 6-12).  `startTime` and
`actualEndTime` are parsed timestamps in epoch milliseconds; optional fields
are `Option`. -/
structure Block where
  startTime : Option ℚ
  actualEndTime : Option ℚ
  totalTokens : ℚ
  isGap : Bool
  isActive : Bool
deriving DecidableEq, Repr

/-- The effective end of a block (monitor.ts lines 118-128): `currentTime`
for an active block, else the recorded `actualEndTime`, defaulting to
`currentTime` when absent. -/
def sessionActualEnd (currentTime : ℚ) (b : Block) : ℚ :=
  if b.isActive then currentTime
  else
    match b.actualEndTime with
    | some e => e
    | none => currentTime

/-- The tokens one block adds to the trailing-hour total: the body of the
`for` loop of `calculateHourlyBurnRate` (monitor.ts lines 106-149), with a
`continue` rendered as a 0 contribution. -/
def blockContribution (currentTime : ℚ) (b : Block) : ℚ :=
  match b.startTime with
  | none => 0
  | some startTime =>
    if b.isGap then 0
    else
      let oneHourAgo := currentTime - 60 * 60 * 1000
      let sEnd := sessionActualEnd currentTime b
      if sEnd < oneHourAgo then 0
      else
        let sessionStartInHour := if startTime > oneHourAgo then startTime else oneHourAgo
        let sessionEndInHour := if sEnd < currentTime then sEnd else currentTime
        if sessionEndInHour ≤ sessionStartInHour then 0
        else
          let totalSessionDuration := (sEnd - startTime) / 60000
          let hourDuration := (sessionEndInHour - sessionStartInHour) / 60000
          if totalSessionDuration > 0 then
            b.totalTokens * (hourDuration / totalSessionDuration)
          else 0

/-- `calculateHourlyBurnRate` (monitor.ts lines 98-152): sum the per-block
contributions over the snapshot, then return `total / 60` if the total is
positive, else 0.  (The `if (!blocks) return 0` null-guard has no
counterpart: a Lean list is never null.) -/
def calculateHourlyBurnRate (blocks : List Block) (currentTime : ℚ) : ℚ :=
  let totalTokens := (blocks.map (blockContribution currentTime)).sum
  if totalTokens > 0 then totalTokens / 60 else 0

/-- A block's share of the trailing hour as the specification words it:
effective end = now if active, else `actualEndTime`, else now; the block
qualifies when it is not a gap, has a start time, and its effective end does
not precede `now - 60min`; its interval clipped to `[now - 60min, now]` has
length `W` minutes, its total duration is `D` minutes, and it contributes
`totalTokens * (W / D)` exactly when `W > 0` and `D > 0`. -/
def specBlockContribution (now : ℚ) (b : Block) : ℚ :=
  match b.startTime with
  | none => 0
  | some s =>
    if b.isGap then 0
    else
      let eff := if b.isActive then now else
        (match b.actualEndTime with | some e => e | none => now)
      if eff < now - 60 * 60 * 1000 then 0
      else
        let w := (min eff now - max s (now - 60 * 60 * 1000)) / 60000
        let d := (eff - s) / 60000
        if 0 < w ∧ 0 < d then b.totalTokens * (w / d) else 0

/-- The hourly burn rate as the specification words it: sum the qualifying
pro-rated shares and divide by 60, returning 0 when no block qualifies or
the total is non-positive. -/
def specHourlyBurnRate (blocks : List Block) (now : ℚ) : ℚ :=
  let total := (blocks.map (specBlockContribution now)).sum
  if 0 < total then total / 60 else 0

/-- The depletion prediction computed inline in `main`
(monitor.ts lines 388-407). -/
def predictDepletion (currentTime burnRate tokensLeft resetTime : ℚ) : ℚ :=
  if burnRate > 0 ∧ tokensLeft > 0 then
    let minutesToDepletion := tokensLeft / burnRate
    let calculatedEndTime := currentTime + minutesToDepletion * 60000
    if calculatedEndTime ≤ currentTime then resetTime
    else if calculatedEndTime > resetTime then resetTime
    else calculatedEndTime
  else resetTime

/-- One iteration of the `custom_max` scan of `getTokenLimit`
(monitor.ts lines 187-194): keep the larger of the running maximum and the
block's `totalTokens`, skipping gap and active blocks. -/
def maxStep (maxTokens : ℚ) (b : Block) : ℚ :=
  if !b.isGap && !b.isActive then
    if b.totalTokens > maxTokens then b.totalTokens else maxTokens
  else maxTokens

/-- The running maximum of `totalTokens` over the non-gap, non-active blocks
of a history, starting from 0: the `custom_max` loop of `getTokenLimit`
(monitor.ts lines 186-194). -/
def maxTokensLoop (blocks : List Block) : ℚ :=
  blocks.foldl maxStep 0

/-- `getTokenLimit` (monitor.ts lines 184-204).  JavaScript truthiness of the
optional `blocks` argument corresponds to `Option.isSome` (an empty array is
truthy); `limits[plan] || 7000` is the fixed table with a 7000 fallback. -/
def getTokenLimit (plan : String) (blocks : Option (List Block)) : ℚ :=
  if plan = "custom_max" ∧ blocks.isSome then
    let maxTokens := maxTokensLoop (blocks.getD [])
    if maxTokens > 0 then maxTokens else 7000
  else
    if plan = "pro" then 7000
    else if plan = "max5" then 35000
    else if plan = "max20" then 140000
    else 7000

/-- A local wall-clock instant, holding exactly the calendar fields the
scheduler reads and writes (`getHours`, `getMinutes`, `setHours(h,0,0,0)`,
`setDate(d+1)`); `day` counts calendar days. -/
structure LocalDate where
  day : ℕ
  hour : ℕ
  minute : ℕ
  second : ℕ
  ms : ℕ
deriving DecidableEq, Repr

/-- Milliseconds since the epoch of day 0, for comparing `LocalDate`s the way
JavaScript compares `Date`s. -/
def toMillis (t : LocalDate) : ℕ :=
  ((t.day * 24 + t.hour) * 60 + t.minute) * 60000 + t.second * 1000 + t.ms

/-- The reset schedule (monitor.ts line 155): the single custom hour when one
is configured, else the fixed daily sequence. -/
def resetSchedule (customResetHour : Option ℕ) : List ℕ :=
  match customResetHour with
  | some h => [h]
  | none => [4, 9, 14, 18, 23]

/-- `getNextResetTime` (monitor.ts lines 154-182): the first scheduled hour
`h` with `currentHour < h`, or `currentHour = h` while `currentMinute = 0`,
today; otherwise the schedule's first hour tomorrow.  `setHours(h, 0, 0, 0)`
zeroes minutes, seconds and milliseconds.  (The schedule is never empty, so
`headD 0` is the code's `resetHours[0]`.) -/
def getNextResetTime (t : LocalDate) (customResetHour : Option ℕ) : LocalDate :=
  match (resetSchedule customResetHour).find?
      (fun h => decide (t.hour < h) || (decide (t.hour = h) && decide (t.minute = 0))) with
  | some h => ⟨t.day, h, 0, 0, 0⟩
  | none => ⟨t.day + 1, (resetSchedule customResetHour).headD 0, 0, 0, 0⟩

set_option linter.unusedVariables false in
/-- The reset time one polling tick actually uses (monitor.ts line 383):
`main` holds the configured `resetHour` but calls
`getNextResetTime(currentTime)` without passing it, so the argument is
(deliberately, mirroring the code) unused. -/
def tickResetTime (currentTime : LocalDate) (resetHour : Option ℕ) : LocalDate :=
  getNextResetTime currentTime none

/-- One tick's update of the running token limit (monitor.ts lines 336-357):
take the first active block; if its tokens exceed the current limit while the
plan is `pro`, re-derive a `custom_max` limit from the snapshot and adopt it
when strictly larger.  A tick with no active block leaves the limit unchanged
(the loop `continue`s before reaching the ratchet). -/
def tickTokenLimit (plan : String) (tokenLimit : ℚ) (blocks : List Block) : ℚ :=
  match blocks.find? (fun b => b.isActive) with
  | none => tokenLimit
  | some activeBlock =>
    let tokensUsed := activeBlock.totalTokens
    if tokensUsed > tokenLimit ∧ plan = "pro" then
      let newLimit := getTokenLimit "custom_max" (some blocks)
      if newLimit > tokenLimit then newLimit else tokenLimit
    else tokenLimit

section BurnRateLemmas

lemma ite_gt_eq_max (a b : ℚ) : (if a > b then a else b) = max a b := by
  split_ifs with h
  · exact (max_eq_left h.le).symm
  · exact (max_eq_right (not_lt.mp h)).symm

lemma ite_lt_eq_min (a b : ℚ) : (if a < b then a else b) = min a b := by
  split_ifs with h
  · exact (min_eq_left h.le).symm
  · exact (min_eq_right (not_lt.mp h)).symm

lemma div_60000_pos {x : ℚ} : 0 < x / 60000 ↔ 0 < x := by
  constructor
  · intro h
    rcases div_pos_iff.mp h with ⟨h1, _⟩ | ⟨_, h2⟩
    · exact h1
    · norm_num at h2
  · intro h
    exact div_pos h (by norm_num)

lemma blockContribution_eq_spec (now : ℚ) (b : Block) :
    blockContribution now b = specBlockContribution now b := by
  obtain ⟨st, ae, tok, gap, act⟩ := b
  cases st with
  | none => rfl
  | some s =>
    cases gap with
    | true => rfl
    | false =>
      simp only [blockContribution, specBlockContribution, sessionActualEnd,
        Bool.false_eq_true, if_false]
      generalize (if act = true then now else
        match ae with | some e => e | none => now) = eff
      rw [ite_gt_eq_max, ite_lt_eq_min]
      by_cases hstale : eff < now - 60 * 60 * 1000
      · rw [if_pos hstale, if_pos hstale]
      · rw [if_neg hstale, if_neg hstale]
        by_cases hle : min eff now ≤ max s (now - 60 * 60 * 1000)
        · have hnot : ¬ (0 < (min eff now - max s (now - 60 * 60 * 1000)) / 60000 ∧
              0 < (eff - s) / 60000) := by
            rintro ⟨hw, -⟩
            rw [div_60000_pos] at hw
            linarith
          rw [if_pos hle, if_neg hnot]
        · push_neg at hle
          have hwpos : 0 < (min eff now - max s (now - 60 * 60 * 1000)) / 60000 := by
            rw [div_60000_pos]
            linarith
          by_cases hd : (eff - s) / 60000 > 0
          · rw [if_neg (not_le.mpr hle), if_pos hd,
              if_pos (And.intro hwpos (show (0:ℚ) < (eff - s) / 60000 from hd))]
          · have hnot : ¬ (0 < (min eff now - max s (now - 60 * 60 * 1000)) / 60000 ∧
                0 < (eff - s) / 60000) := by
              rintro ⟨-, hd2⟩
              exact hd hd2
            rw [if_neg (not_le.mpr hle), if_neg hd, if_neg hnot]

end BurnRateLemmas

/-- C1: `calculateHourlyBurnRate` computes exactly what the specification
describes: the sum over qualifying blocks of `totalTokens * (W / D)` with the
interval clipped to the trailing hour, divided by 60, with 0 when no block
qualifies or the total is non-positive. -/
theorem calculateHourlyBurnRate_eq_spec (blocks : List Block) (now : ℚ) :
    calculateHourlyBurnRate blocks now = specHourlyBurnRate blocks now := by
  unfold calculateHourlyBurnRate specHourlyBurnRate
  have hmap : blocks.map (blockContribution now) = blocks.map (specBlockContribution now) :=
    List.map_congr_left (fun b _ => blockContribution_eq_spec now b)
  rw [hmap]

/-- C8: the burn rate is non-negative for every snapshot (blocks with
arbitrary field values included) and exactly 0 for the empty snapshot. -/
theorem calculateHourlyBurnRate_nonneg (blocks : List Block) (now : ℚ) :
    0 ≤ calculateHourlyBurnRate blocks now ∧ calculateHourlyBurnRate [] now = 0 := by
  have hchar : ∀ bs : List Block, calculateHourlyBurnRate bs now =
      if (bs.map (blockContribution now)).sum > 0
      then (bs.map (blockContribution now)).sum / 60 else 0 := fun _ => rfl
  constructor
  · rw [hchar]
    split_ifs with h
    · positivity
    · exact le_refl 0
  · rw [hchar]
    norm_num

/-- C2: the depletion prediction returns `resetTime` when `burnRate ≤ 0` or
`tokensLeft ≤ 0`; otherwise, with candidate `now + (tokensLeft/burnRate)`
minutes, it returns `resetTime` when the candidate is `≤ now` or beyond
`resetTime`, and the candidate otherwise; in every case the result is
`≤ resetTime`. -/
theorem predictDepletion_spec (now burnRate tokensLeft resetTime : ℚ) :
    (predictDepletion now burnRate tokensLeft resetTime =
      if burnRate ≤ 0 ∨ tokensLeft ≤ 0 then resetTime
      else if now + (tokensLeft / burnRate) * 60000 ≤ now ∨
              resetTime < now + (tokensLeft / burnRate) * 60000 then resetTime
      else now + (tokensLeft / burnRate) * 60000) ∧
    predictDepletion now burnRate tokensLeft resetTime ≤ resetTime := by
  have hchar : predictDepletion now burnRate tokensLeft resetTime =
      if burnRate ≤ 0 ∨ tokensLeft ≤ 0 then resetTime
      else if now + (tokensLeft / burnRate) * 60000 ≤ now ∨
              resetTime < now + (tokensLeft / burnRate) * 60000 then resetTime
      else now + (tokensLeft / burnRate) * 60000 := by
    by_cases h1 : burnRate > 0 ∧ tokensLeft > 0
    · have hstep : predictDepletion now burnRate tokensLeft resetTime =
          (if now + tokensLeft / burnRate * 60000 ≤ now then resetTime
           else if now + tokensLeft / burnRate * 60000 > resetTime then resetTime
           else now + tokensLeft / burnRate * 60000) := by
        unfold predictDepletion
        rw [if_pos h1]
      have hneg : ¬ (burnRate ≤ 0 ∨ tokensLeft ≤ 0) := by
        push_neg
        exact h1
      rw [hstep, if_neg hneg]
      by_cases h2 : now + tokensLeft / burnRate * 60000 ≤ now
      · rw [if_pos h2, if_pos (Or.inl h2)]
      · by_cases h3 : resetTime < now + tokensLeft / burnRate * 60000
        · rw [if_neg h2, if_pos h3, if_pos (Or.inr h3)]
        · rw [if_neg h2, if_neg h3, if_neg (not_or.mpr ⟨h2, h3⟩)]
    · have hstep : predictDepletion now burnRate tokensLeft resetTime = resetTime := by
        unfold predictDepletion
        rw [if_neg h1]
      have hor : burnRate ≤ 0 ∨ tokensLeft ≤ 0 := by
        rcases not_and_or.mp h1 with h | h
        · exact Or.inl (not_lt.mp h)
        · exact Or.inr (not_lt.mp h)
      rw [hstep, if_pos hor]
  refine ⟨hchar, ?_⟩
  rw [hchar]
  split_ifs with h1 h2
  · exact le_refl resetTime
  · exact le_refl resetTime
  · push_neg at h2
    exact h2.2

/-- C9: `getTokenLimit` called with plan `custom_max` but no history falls
through to the default table and returns 7000, exactly as for an unknown
plan identifier. -/
theorem getTokenLimit_custom_max_no_history :
    getTokenLimit "custom_max" none = 7000 ∧
    ∀ p : String, p ≠ "pro" → p ≠ "max5" → p ≠ "max20" →
      getTokenLimit "custom_max" none = getTokenLimit p none := by
  constructor
  · rfl
  · intro p h1 h2 h3
    simp [getTokenLimit, h1, h2, h3]

/-- Witness for C9's universally quantified clause at a concrete unknown
plan identifier. -/
theorem getTokenLimit_custom_max_no_history_witness :
    getTokenLimit "custom_max" none = getTokenLimit "enterprise" none :=
  getTokenLimit_custom_max_no_history.2 "enterprise"
    (by decide) (by decide) (by decide)

/-- C5 (code bug evidence): with a configured custom reset hour of 7 at
local time 10:30, the polling tick's reset time comes from the default
schedule (hour 14), while honoring the custom hour would give 07:00 the next
day; the tick ignores the configured hour. -/
theorem tickResetTime_ignores_custom_hour :
    (tickResetTime ⟨0, 10, 30, 0, 0⟩ (some 7)).hour = 14 ∧
    getNextResetTime ⟨0, 10, 30, 0, 0⟩ (some 7) = ⟨1, 7, 0, 0, 0⟩ := by
  decide

/-- C7: a gap block, and a block whose effective end lies more than 60
minutes before `now`, contribute exactly 0 to the burn rate, and deleting
such a block from any snapshot leaves `calculateHourlyBurnRate`
unchanged. -/
theorem gapOrStaleBlock_contributes_zero (now : ℚ) (b : Block)
    (h : b.isGap = true ∨ sessionActualEnd now b < now - 60 * 60 * 1000) :
    blockContribution now b = 0 ∧
    ∀ pre post : List Block,
      calculateHourlyBurnRate (pre ++ b :: post) now =
        calculateHourlyBurnRate (pre ++ post) now := by
  obtain ⟨st, ae, tok, gap, act⟩ := b
  have hz : blockContribution now ⟨st, ae, tok, gap, act⟩ = 0 := by
    cases st with
    | none => rfl
    | some s =>
      cases gap with
      | true => rfl
      | false =>
        rcases h with hg | hstale
        · exact absurd hg (by simp)
        · simp only [blockContribution, sessionActualEnd, Bool.false_eq_true, if_false]
          simp only [sessionActualEnd] at hstale
          rw [if_pos hstale]
  refine ⟨hz, fun pre post => ?_⟩
  have hchar : ∀ bs : List Block, calculateHourlyBurnRate bs now =
      if (bs.map (blockContribution now)).sum > 0
      then (bs.map (blockContribution now)).sum / 60 else 0 := fun _ => rfl
  rw [hchar, hchar]
  have hsum : ((pre ++ ⟨st, ae, tok, gap, act⟩ :: post).map (blockContribution now)).sum =
      ((pre ++ post).map (blockContribution now)).sum := by
    simp [hz]
  rw [hsum]

/-- Witness for C7 at a concrete gap block. -/
theorem gapOrStaleBlock_contributes_zero_witness :
    blockContribution 0 ⟨some 0, some 1000, 5, true, false⟩ = 0 ∧
    calculateHourlyBurnRate [⟨some 0, some 1000, 5, true, false⟩] 0 =
      calculateHourlyBurnRate [] 0 := by
  have h := gapOrStaleBlock_contributes_zero 0 ⟨some 0, some 1000, 5, true, false⟩ (Or.inl rfl)
  exact ⟨h.1, h.2 [] []⟩

/-- C3: `getNextResetTime` zeroes minutes, seconds and milliseconds; it
returns, on the same calendar day, the schedule's first hour strictly above
the current hour (or equal to it when the current minute is exactly 0), and
when no scheduled hour qualifies it returns the schedule's first hour on the
next calendar day; with the default schedule, 10:30 maps to 14:00 same day,
23:30 to 04:00 next day and exactly 04:00:00 to 04:00 same day. -/
theorem getNextResetTime_spec (t : LocalDate) (c : Option ℕ) :
    ((getNextResetTime t c).minute = 0 ∧ (getNextResetTime t c).second = 0 ∧
      (getNextResetTime t c).ms = 0) ∧
    (∀ h : ℕ,
      (resetSchedule c).find?
          (fun x => decide (t.hour < x) || (decide (t.hour = x) && decide (t.minute = 0))) =
        some h →
      getNextResetTime t c = ⟨t.day, h, 0, 0, 0⟩) ∧
    ((resetSchedule c).find?
          (fun x => decide (t.hour < x) || (decide (t.hour = x) && decide (t.minute = 0))) =
        none →
      getNextResetTime t c = ⟨t.day + 1, (resetSchedule c).headD 0, 0, 0, 0⟩) ∧
    getNextResetTime ⟨0, 10, 30, 0, 0⟩ none = ⟨0, 14, 0, 0, 0⟩ ∧
    getNextResetTime ⟨0, 23, 30, 0, 0⟩ none = ⟨1, 4, 0, 0, 0⟩ ∧
    getNextResetTime ⟨0, 4, 0, 0, 0⟩ none = ⟨0, 4, 0, 0, 0⟩ := by
  have hsome : ∀ h : ℕ,
      (resetSchedule c).find?
          (fun x => decide (t.hour < x) || (decide (t.hour = x) && decide (t.minute = 0))) =
        some h →
      getNextResetTime t c = ⟨t.day, h, 0, 0, 0⟩ := by
    intro h hf
    unfold getNextResetTime
    rw [hf]
  have hnone :
      (resetSchedule c).find?
          (fun x => decide (t.hour < x) || (decide (t.hour = x) && decide (t.minute = 0))) =
        none →
      getNextResetTime t c = ⟨t.day + 1, (resetSchedule c).headD 0, 0, 0, 0⟩ := by
    intro hf
    unfold getNextResetTime
    rw [hf]
  refine ⟨?_, hsome, hnone, by decide, by decide, by decide⟩
  cases hf : (resetSchedule c).find?
      (fun x => decide (t.hour < x) || (decide (t.hour = x) && decide (t.minute = 0))) with
  | none => rw [hnone hf]; exact ⟨rfl, rfl, rfl⟩
  | some h => rw [hsome h hf]; exact ⟨rfl, rfl, rfl⟩

/-- Witness for C3's first-qualifying-hour clause at 10:30 with the default
schedule. -/
theorem getNextResetTime_spec_witness :
    getNextResetTime ⟨0, 10, 30, 0, 0⟩ none = ⟨0, 14, 0, 0, 0⟩ :=
  (getNextResetTime_spec ⟨0, 10, 30, 0, 0⟩ none).2.1 14 (by decide)

/-- C10: when the current local hour is in the schedule, the minute is
exactly 0, and the seconds or milliseconds are nonzero, `getNextResetTime`
returns a timestamp strictly earlier than now: the boundary rule tests only
the minute while the result's seconds and milliseconds are zeroed. -/
theorem getNextResetTime_can_precede_now (t : LocalDate) (c : Option ℕ)
    (hmem : t.hour ∈ resetSchedule c) (hmin : t.minute = 0)
    (hfrac : 0 < t.second * 1000 + t.ms) :
    toMillis (getNextResetTime t c) < toMillis t := by
  have hres : getNextResetTime t c = ⟨t.day, t.hour, 0, 0, 0⟩ := by
    cases c with
    | some ch =>
      simp only [resetSchedule, List.mem_singleton] at hmem
      subst hmem
      simp [getNextResetTime, resetSchedule, List.find?, hmin]
    | none =>
      simp only [resetSchedule, List.mem_cons, List.mem_singleton,
        List.not_mem_nil, or_false] at hmem
      rcases hmem with h | h | h | h | h <;>
        simp [getNextResetTime, resetSchedule, List.find?, h, hmin]
  rw [hres]
  unfold toMillis
  simp only [hmin]
  omega

/-- Witness for C10 at 09:00:30 with the default schedule. -/
theorem getNextResetTime_can_precede_now_witness :
    toMillis (getNextResetTime ⟨0, 9, 0, 30, 0⟩ none) < toMillis ⟨0, 9, 0, 30, 0⟩ :=
  getNextResetTime_can_precede_now ⟨0, 9, 0, 30, 0⟩ none (by decide) rfl (by decide)

section LimitLemmas

lemma maxStep_le (m : ℚ) (b : Block) : m ≤ maxStep m b := by
  unfold maxStep
  split_ifs with h1 h2
  · exact le_of_lt h2
  · exact le_refl m
  · exact le_refl m

lemma foldl_maxStep_init_le (bs : List Block) : ∀ m : ℚ, m ≤ bs.foldl maxStep m := by
  induction bs with
  | nil => intro m; simp
  | cons b l ih =>
    intro m
    rw [List.foldl_cons]
    exact le_trans (maxStep_le m b) (ih (maxStep m b))

lemma foldl_maxStep_eq_init_or_mem (bs : List Block) : ∀ m : ℚ,
    bs.foldl maxStep m = m ∨
    ∃ b ∈ bs, (!b.isGap && !b.isActive) = true ∧ bs.foldl maxStep m = b.totalTokens := by
  induction bs with
  | nil => intro m; exact Or.inl rfl
  | cons b l ih =>
    intro m
    rw [List.foldl_cons]
    rcases ih (maxStep m b) with h | ⟨b2, hb2, he, hv⟩
    · rw [h]
      unfold maxStep
      split_ifs with h1 h2
      · exact Or.inr ⟨b, List.mem_cons_self b l, h1, rfl⟩
      · exact Or.inl rfl
      · exact Or.inl rfl
    · exact Or.inr ⟨b2, List.mem_cons_of_mem b hb2, he, hv⟩

lemma foldl_maxStep_ub (bs : List Block) : ∀ m : ℚ, ∀ b ∈ bs,
    (!b.isGap && !b.isActive) = true → b.totalTokens ≤ bs.foldl maxStep m := by
  induction bs with
  | nil =>
    intro m b hb
    cases hb
  | cons a l ih =>
    intro m b hb he
    rw [List.foldl_cons]
    rcases List.mem_cons.mp hb with rfl | hb2
    · refine le_trans ?_ (foldl_maxStep_init_le l (maxStep m b))
      unfold maxStep
      rw [if_pos he]
      split_ifs with h2
      · exact le_refl _
      · exact not_lt.mp h2
    · exact ih (maxStep m a) b hb2 he

lemma getTokenLimit_custom_max_eq (bs : List Block) :
    getTokenLimit "custom_max" (some bs) =
      if maxTokensLoop bs > 0 then maxTokensLoop bs else 7000 := rfl

end LimitLemmas

/-- C4: the fixed tiers resolve to pro=7000, max5=35000, max20=140000;
any unknown plan identifier resolves to 7000; and `custom_max` with a history
resolves to the maximum `totalTokens` over the non-gap, non-active blocks,
falling back to 7000 when no such block exists or every such block's count is
non-positive. -/
theorem getTokenLimit_spec (obs : Option (List Block)) (bs : List Block) :
    getTokenLimit "pro" obs = 7000 ∧
    getTokenLimit "max5" obs = 35000 ∧
    getTokenLimit "max20" obs = 140000 ∧
    (∀ p : String, p ≠ "pro" → p ≠ "max5" → p ≠ "max20" → p ≠ "custom_max" →
      getTokenLimit p obs = 7000) ∧
    ((∀ b ∈ bs, (!b.isGap && !b.isActive) = true → b.totalTokens ≤ 0) →
      getTokenLimit "custom_max" (some bs) = 7000) ∧
    ((∃ b ∈ bs, (!b.isGap && !b.isActive) = true ∧ 0 < b.totalTokens) →
      ∃ b ∈ bs, (!b.isGap && !b.isActive) = true ∧
        getTokenLimit "custom_max" (some bs) = b.totalTokens ∧
        ∀ b2 ∈ bs, (!b2.isGap && !b2.isActive) = true →
          b2.totalTokens ≤ b.totalTokens) := by
  refine ⟨by cases obs <;> rfl, by cases obs <;> rfl, by cases obs <;> rfl,
    ?_, ?_, ?_⟩
  · intro p h1 h2 h3 h4
    simp [getTokenLimit, h1, h2, h3, h4]
  · intro hall
    have hzero : maxTokensLoop bs = 0 := by
      rcases foldl_maxStep_eq_init_or_mem bs 0 with h | ⟨b, hb, he, hv⟩
      · exact h
      · have h1 : b.totalTokens ≤ 0 := hall b hb he
        have h2 : (0:ℚ) ≤ bs.foldl maxStep 0 := foldl_maxStep_init_le bs 0
        unfold maxTokensLoop
        rw [hv]
        exact le_antisymm h1 (hv ▸ h2)
    rw [getTokenLimit_custom_max_eq, hzero]
    norm_num
  · rintro ⟨b0, hb0, he0, hpos0⟩
    have hub0 : b0.totalTokens ≤ maxTokensLoop bs := foldl_maxStep_ub bs 0 b0 hb0 he0
    have hpos : maxTokensLoop bs > 0 := lt_of_lt_of_le hpos0 hub0
    rcases foldl_maxStep_eq_init_or_mem bs 0 with h | ⟨b, hb, he, hv⟩
    · exfalso
      unfold maxTokensLoop at hpos
      rw [h] at hpos
      exact lt_irrefl 0 hpos
    · refine ⟨b, hb, he, ?_, ?_⟩
      · rw [getTokenLimit_custom_max_eq, if_pos hpos]
        exact hv
      · intro b2 hb2 he2
        exact hv ▸ foldl_maxStep_ub bs 0 b2 hb2 he2

/-- Witness for C4: a history whose only eligible block holds 8000 tokens
resolves (plan `custom_max`) to 8000; evaluated through the theorem's
maximum clause. -/
theorem getTokenLimit_spec_witness :
    getTokenLimit "custom_max"
      (some [⟨some 0, none, 10000, false, true⟩, ⟨some 0, some 1, 8000, false, false⟩]) =
      8000 := by
  have h := (getTokenLimit_spec none
      [⟨some 0, none, 10000, false, true⟩, ⟨some 0, some 1, 8000, false, false⟩]).2.2.2.2.2
      ⟨⟨some 0, some 1, 8000, false, false⟩, by decide, by decide, by norm_num⟩
  rcases h with ⟨b, hb, he, heq, hub⟩
  rcases List.mem_cons.mp hb with rfl | hb2
  · exact absurd he (by decide)
  · rcases List.mem_cons.mp hb2 with rfl | hb3
    · exact heq
    · cases hb3

section RatchetLemmas

lemma tickTokenLimit_of_no_active {bs : List Block} (plan : String) (L : ℚ)
    (hf : bs.find? (fun b => b.isActive) = none) :
    tickTokenLimit plan L bs = L := by
  unfold tickTokenLimit
  rw [hf]

lemma tickTokenLimit_of_active {bs : List Block} {ab : Block} (plan : String) (L : ℚ)
    (hf : bs.find? (fun b => b.isActive) = some ab) :
    tickTokenLimit plan L bs =
      if ab.totalTokens > L ∧ plan = "pro" then
        if getTokenLimit "custom_max" (some bs) > L
        then getTokenLimit "custom_max" (some bs) else L
      else L := by
  unfold tickTokenLimit
  rw [hf]

lemma tickTokenLimit_le (plan : String) (L : ℚ) (bs : List Block) :
    L ≤ tickTokenLimit plan L bs := by
  cases hf : bs.find? (fun b => b.isActive) with
  | none => rw [tickTokenLimit_of_no_active plan L hf]
  | some ab =>
    rw [tickTokenLimit_of_active plan L hf]
    split_ifs with h1 h2
    · exact le_of_lt h2
    · exact le_refl L
    · exact le_refl L

lemma foldl_tickTokenLimit_le (plan : String) (snaps : List (List Block)) :
    ∀ L : ℚ, L ≤ snaps.foldl (tickTokenLimit plan) L := by
  induction snaps with
  | nil => intro L; simp
  | cons bs l ih =>
    intro L
    rw [List.foldl_cons]
    exact le_trans (tickTokenLimit_le plan L bs) (ih (tickTokenLimit plan L bs))

end RatchetLemmas

/-- C6: the per-tick limit update is a monotone ratchet: the limit never
decreases across any sequence of ticks; it changes only when the plan is
`pro`, the active block's tokens exceed the current limit and the
`custom_max`-derived limit strictly exceeds it (in which case it becomes that
value); re-applying the update — with the same snapshot or any snapshot whose
`custom_max`-derived limit is unchanged — raises it no further. -/
theorem tickTokenLimit_ratchet (plan : String) (limit : ℚ) (blocks : List Block) :
    limit ≤ tickTokenLimit plan limit blocks ∧
    (tickTokenLimit plan limit blocks ≠ limit →
      plan = "pro" ∧
      (∃ ab, blocks.find? (fun b => b.isActive) = some ab ∧ limit < ab.totalTokens) ∧
      limit < getTokenLimit "custom_max" (some blocks) ∧
      tickTokenLimit plan limit blocks = getTokenLimit "custom_max" (some blocks)) ∧
    tickTokenLimit plan (tickTokenLimit plan limit blocks) blocks =
      tickTokenLimit plan limit blocks ∧
    (∀ blocks2 : List Block,
      getTokenLimit "custom_max" (some blocks2) = getTokenLimit "custom_max" (some blocks) →
      tickTokenLimit plan limit blocks ≠ limit →
      tickTokenLimit plan (tickTokenLimit plan limit blocks) blocks2 =
        tickTokenLimit plan limit blocks) ∧
    ∀ snaps : List (List Block), limit ≤ snaps.foldl (tickTokenLimit plan) limit := by
  have hmut : tickTokenLimit plan limit blocks ≠ limit →
      plan = "pro" ∧
      (∃ ab, blocks.find? (fun b => b.isActive) = some ab ∧ limit < ab.totalTokens) ∧
      limit < getTokenLimit "custom_max" (some blocks) ∧
      tickTokenLimit plan limit blocks = getTokenLimit "custom_max" (some blocks) := by
    intro hne
    cases hf : blocks.find? (fun b => b.isActive) with
    | none => exact absurd (tickTokenLimit_of_no_active plan limit hf) hne
    | some ab =>
      rw [tickTokenLimit_of_active plan limit hf] at hne ⊢
      by_cases hcond : ab.totalTokens > limit ∧ plan = "pro"
      · rw [if_pos hcond] at hne ⊢
        by_cases hnew : getTokenLimit "custom_max" (some blocks) > limit
        · rw [if_pos hnew] at hne ⊢
          exact ⟨hcond.2, ⟨ab, rfl, hcond.1⟩, hnew, rfl⟩
        · rw [if_neg hnew] at hne
          exact absurd rfl hne
      · rw [if_neg hcond] at hne
        exact absurd rfl hne
  have hsame : ∀ blocks2 : List Block,
      getTokenLimit "custom_max" (some blocks2) = getTokenLimit "custom_max" (some blocks) →
      tickTokenLimit plan limit blocks ≠ limit →
      tickTokenLimit plan (tickTokenLimit plan limit blocks) blocks2 =
        tickTokenLimit plan limit blocks := by
    intro blocks2 hmax hne
    obtain ⟨hpro, ⟨ab, hf, htok⟩, hnew, heq⟩ := hmut hne
    cases hf2 : blocks2.find? (fun b => b.isActive) with
    | none => exact tickTokenLimit_of_no_active plan _ hf2
    | some ab2 =>
      rw [tickTokenLimit_of_active plan _ hf2]
      by_cases hcond : ab2.totalTokens > tickTokenLimit plan limit blocks ∧ plan = "pro"
      · rw [if_pos hcond, if_neg ?_]
        rw [hmax, heq]
        exact lt_irrefl _
      · rw [if_neg hcond]
  have hidem : tickTokenLimit plan (tickTokenLimit plan limit blocks) blocks =
      tickTokenLimit plan limit blocks := by
    by_cases hne : tickTokenLimit plan limit blocks = limit
    · rw [hne]
      exact hne
    · exact hsame blocks rfl hne
  exact ⟨tickTokenLimit_le plan limit blocks, hmut, hidem, hsame,
    fun snaps => foldl_tickTokenLimit_le plan snaps limit⟩

/-- Witness for C6: on plan `pro` with limit 7000, a snapshot whose active
block holds 10000 tokens and whose best completed block holds 8000 raises the
limit to exactly the `custom_max`-derived value. -/
theorem tickTokenLimit_ratchet_witness :
    tickTokenLimit "pro" 7000
        [⟨some 0, none, 10000, false, true⟩, ⟨some 0, some 1, 8000, false, false⟩] =
      getTokenLimit "custom_max"
        (some [⟨some 0, none, 10000, false, true⟩, ⟨some 0, some 1, 8000, false, false⟩]) :=
  ((tickTokenLimit_ratchet "pro" 7000
      [⟨some 0, none, 10000, false, true⟩, ⟨some 0, some 1, 8000, false, false⟩]).2.1
    (by decide)).2.2.2
